/-
Verification of ppo/ppo_caps/core.py (actor-critic modules for PPO).

The Python source is embedded shallowly:
  * tensors that are 1-D float vectors become `List ℝ` (`Vec`);
  * `torch.nn.Linear` weights/biases become explicit data
    (`LinearParams`) and `mlp`-built networks become lists of layer
    parameters folded by `mlpForward`;
  * activation functions (`nn.Tanh`, ...) are arbitrary `ℝ → ℝ`
    parameters, exactly as they are constructor parameters in the source;
    `nn.ELU` (hard-coded in `MLPBetaActor`) is embedded concretely;
  * distribution objects become records of their parameters;
  * sampling (`pi.sample()`, `torch.normal`) is externalized: the drawn
    values are inputs of the embedded function;
  * `scipy.signal.lfilter([1], [1, -d], x[::-1])[::-1]` becomes the
    first-order IIR recursion `lfilterIIR1` applied to the reversed list.
-/
import Mathlib

noncomputable section

abbrev Vec := List ℝ

/-! ## discount_cumsum

Source:
    def discount_cumsum(x, discount):
        return scipy.signal.lfilter([1], [1, float(-discount)], x[::-1], axis=0)[::-1]

`lfilter` with numerator [1] and denominator [1, -d] and zero initial
state realizes y[n] = x[n] + d * y[n-1] (y[-1] = 0). -/

/-- One-pole IIR filter with coefficients b = [1], a = [1, -d]:
`y[n] = x[n] + d * y[n-1]`, carrying the previous output `prev`. -/
def lfilterIIR1 (d : ℝ) : ℝ → List ℝ → List ℝ
  | _, [] => []
  | prev, x :: xs => (x + d * prev) :: lfilterIIR1 d (x + d * prev) xs

/-- `discount_cumsum(x, discount)` from the source: filter the reversed
vector, then reverse the result. -/
def discount_cumsum (x : List ℝ) (discount : ℝ) : List ℝ :=
  (lfilterIIR1 discount 0 x.reverse).reverse

/-- Reference recursion from the back: y[i] = x[i] + d * y[i+1]. -/
def dcsBack (d : ℝ) : List ℝ → List ℝ
  | [] => []
  | x :: xs => (x + d * (dcsBack d xs).headD 0) :: dcsBack d xs

@[simp] theorem lfilterIIR1_nil (d p : ℝ) : lfilterIIR1 d p [] = [] := rfl

@[simp] theorem lfilterIIR1_cons (d p x : ℝ) (xs : List ℝ) :
    lfilterIIR1 d p (x :: xs) = (x + d * p) :: lfilterIIR1 d (x + d * p) xs := rfl

theorem lfilterIIR1_length (d : ℝ) : ∀ (p : ℝ) (l : List ℝ),
    (lfilterIIR1 d p l).length = l.length
  | _, [] => rfl
  | p, x :: xs => by simp [lfilterIIR1_length d (x + d * p) xs]

theorem lfilterIIR1_append_singleton (d : ℝ) : ∀ (p x : ℝ) (l : List ℝ),
    lfilterIIR1 d p (l ++ [x]) =
      lfilterIIR1 d p l ++ [x + d * (lfilterIIR1 d p l).getLastD p]
  | p, x, [] => by simp
  | p, x, y :: l => by
    simp only [List.cons_append, lfilterIIR1_cons, List.getLastD_cons]
    rw [lfilterIIR1_append_singleton d (y + d * p) x l]

theorem discount_cumsum_cons (d x : ℝ) (xs : List ℝ) :
    discount_cumsum (x :: xs) d =
      (x + d * (discount_cumsum xs d).headD 0) :: discount_cumsum xs d := by
  unfold discount_cumsum
  rw [List.reverse_cons, lfilterIIR1_append_singleton, List.reverse_append]
  simp [List.getLastD_eq_getLast?, List.headD_eq_head?, List.head?_reverse]

theorem discount_cumsum_eq_dcsBack (d : ℝ) : ∀ (x : List ℝ),
    discount_cumsum x d = dcsBack d x
  | [] => rfl
  | a :: xs => by
    rw [discount_cumsum_cons, discount_cumsum_eq_dcsBack d xs]
    rfl

theorem dcsBack_length (d : ℝ) : ∀ (l : List ℝ), (dcsBack d l).length = l.length
  | [] => rfl
  | _ :: xs => by simp [dcsBack, dcsBack_length d xs]

theorem dcsBack_headD (d : ℝ) : ∀ (l : List ℝ),
    (dcsBack d l).headD 0 =
      ∑ k ∈ Finset.range l.length, d ^ k * l.getD k 0
  | [] => by simp [dcsBack]
  | x :: xs => by
    have ih := dcsBack_headD d xs
    simp only [dcsBack, List.headD_cons, List.length_cons]
    rw [Finset.sum_range_succ' (fun k => d ^ k * (x :: xs).getD k 0)]
    simp only [List.getD_cons_succ, List.getD_cons_zero, pow_zero, one_mul]
    rw [ih, Finset.mul_sum, add_comm]
    congr 1
    exact Finset.sum_congr rfl fun k _ => by ring

theorem dcsBack_drop (d : ℝ) : ∀ (i : ℕ) (l : List ℝ),
    (dcsBack d l).drop i = dcsBack d (l.drop i)
  | 0, _ => rfl
  | _ + 1, [] => by simp [dcsBack]
  | i + 1, _ :: xs => by
    simp only [dcsBack, List.drop_succ_cons]
    exact dcsBack_drop d i xs

theorem getD_eq_headD_drop (l : List ℝ) (i : ℕ) :
    l.getD i 0 = (l.drop i).headD 0 := by
  induction l generalizing i with
  | nil => simp
  | cons a t ih =>
    cases i with
    | zero => simp
    | succ j => simp

/-- Closed form at every index (out of range both sides are 0). -/
theorem discount_cumsum_getD (x : List ℝ) (d : ℝ) (i : ℕ) :
    (discount_cumsum x d).getD i 0 =
      ∑ k ∈ Finset.range (x.length - i), d ^ k * x.getD (i + k) 0 := by
  rw [discount_cumsum_eq_dcsBack, getD_eq_headD_drop, dcsBack_drop, dcsBack_headD]
  rw [List.length_drop]
  refine Finset.sum_congr rfl fun k _ => ?_
  rw [List.getD_eq_getElem?_getD, List.getD_eq_getElem?_getD,
    List.getElem?_drop]

theorem discount_cumsum_length (x : List ℝ) (d : ℝ) :
    (discount_cumsum x d).length = x.length := by
  rw [discount_cumsum_eq_dcsBack, dcsBack_length]

theorem discount_cumsum_step (x : List ℝ) (d : ℝ) (i : ℕ) (h : i + 1 < x.length) :
    (discount_cumsum x d).getD i 0 =
      x.getD i 0 + d * (discount_cumsum x d).getD (i + 1) 0 := by
  rw [discount_cumsum_eq_dcsBack]
  rw [getD_eq_headD_drop (dcsBack d x) i, dcsBack_drop,
    getD_eq_headD_drop (dcsBack d x) (i + 1), dcsBack_drop]
  have hx : x.drop i = x.getD i 0 :: x.drop (i + 1) := by
    rw [getD_eq_headD_drop]
    cases hd : x.drop i with
    | nil =>
      exfalso
      have := congrArg List.length hd
      simp only [List.length_drop, List.length_nil] at this
      omega
    | cons a t =>
      have : x.drop (i + 1) = t := by
        have := congrArg (List.drop 1) hd
        simpa [List.drop_drop] using this
      simp [this]
  rw [hx]
  simp [dcsBack]

theorem discount_cumsum_last (x : List ℝ) (d : ℝ) (h : x ≠ []) :
    (discount_cumsum x d).getD (x.length - 1) 0 = x.getD (x.length - 1) 0 := by
  have hlen : 0 < x.length := List.length_pos.mpr h
  rw [discount_cumsum_getD]
  have : x.length - (x.length - 1) = 1 := by omega
  rw [this]
  simp

/-! ## mlp

Source:
    def mlp(sizes, activation, output_activation=nn.Identity):
        layers = []
        for j in range(len(sizes)-1):
            act = activation if j < len(sizes)-2 else output_activation
            layers += [nn.Linear(sizes[j], sizes[j+1]), act()]
        return nn.Sequential(*layers)

The modules of the returned `nn.Sequential` are embedded symbolically: a
`Linear` module by its two dimensions, an activation module by the value
(of an arbitrary type `A`) that instantiated it.  In the source,
`output_activation` defaults to `nn.Identity`. -/

inductive SeqModule (A : Type) where
  | linear (inFeatures outFeatures : ℕ)
  | activation (a : A)

def mlp {A : Type} (sizes : List ℕ) (activation output_activation : A) :
    List (SeqModule A) :=
  (List.range (sizes.length - 1)).flatMap fun j =>
    [SeqModule.linear (sizes.getD j 0) (sizes.getD (j + 1) 0),
      SeqModule.activation
        (if j < sizes.length - 2 then activation else output_activation)]

theorem flatMap_pairs_length {β : Type} (g h : ℕ → β) (m : ℕ) :
    ((List.range m).flatMap fun i => [g i, h i]).length = 2 * m := by
  induction m with
  | zero => rfl
  | succ n ih =>
    rw [List.range_succ, List.flatMap_append]
    simp only [List.length_append, ih, List.flatMap_cons, List.flatMap_nil,
      List.append_nil, List.length_cons, List.length_nil]
    omega

/-! ## Network forward passes

A network built by `mlp` is, semantically, an alternation of affine maps
and pointwise activations; the activation after every `Linear` except the
last is the constructor's `activation`, the one after the last is its
`output_activation`.  `mlpForward hidden out params x` folds that
alternation over the per-layer parameters (weight rows, bias). -/

/-- Parameters of one `nn.Linear`: the weight rows and the bias. -/
abbrev LinearParams := List (List ℝ) × Vec

/-- `nn.Linear` forward: `y i = w i ⬝ x + b i`. -/
def linearForward (p : LinearParams) (x : Vec) : Vec :=
  (p.1.zip p.2).map fun rb => (rb.1.zip x).foldr (fun q s => q.1 * q.2 + s) 0 + rb.2

/-- Forward pass of the `nn.Sequential` built by `mlp`: activation
`hidden` after every layer but the last, `out` after the last. -/
def mlpForward (hidden out : ℝ → ℝ) : List LinearParams → Vec → Vec
  | [], x => x
  | [p], x => (linearForward p x).map out
  | p :: q :: ps, x => mlpForward hidden out (q :: ps) ((linearForward p x).map hidden)

/-- `nn.ELU` with the default alpha = 1. -/
def elu (x : ℝ) : ℝ := if 0 < x then x else Real.exp x - 1

theorem neg_one_lt_elu (x : ℝ) : -1 < elu x := by
  unfold elu
  split
  · linarith
  · have := Real.exp_pos x
    linarith

theorem mlpForward_mem_out_range (hidden out : ℝ → ℝ) :
    ∀ (ps : List LinearParams) (x : Vec), ps ≠ [] →
      ∀ v ∈ mlpForward hidden out ps x, ∃ z, v = out z
  | [], _, hne => absurd rfl hne
  | [p], x, _ => by
    intro v hv
    rcases List.mem_map.mp hv with ⟨z, _, hz⟩
    exact ⟨z, hz.symm⟩
  | p :: q :: ps, x, _ => by
    intro v hv
    exact mlpForward_mem_out_range hidden out (q :: ps)
      ((linearForward p x).map hidden) (List.cons_ne_nil q ps) v hv

/-! ## Tensors and the critic

`MLPCritic.forward` applies `torch.squeeze(·, -1)`: a trailing dimension
of size 1 is removed, anything else is left alone.  Only the ranks that
occur (single observation = 1-D, batch = 2-D) are modelled. -/

inductive Tensor where
  | scalar (x : ℝ)
  | vec (v : Vec)
  | mat (rows : List Vec)

/-- `torch.squeeze(t, -1)`: drop the last dimension when its size is 1. -/
def squeezeLast : Tensor → Tensor
  | .scalar x => .scalar x
  | .vec v => if v.length = 1 then .scalar (v.headD 0) else .vec v
  | .mat rows =>
      if ∀ r ∈ rows, r.length = 1 then .vec (rows.map fun r => r.headD 0)
      else .mat rows

/-- Source:
    class MLPCritic(nn.Module):
        def __init__(self, obs_dim, hidden_sizes, activation):
            self.v_net = mlp([obs_dim] + list(hidden_sizes) + [1], activation)
        def forward(self, obs):
            return torch.squeeze(self.v_net(obs), -1)
`v_net` is built with the default `output_activation` (identity). -/
structure MLPCritic where
  activation : ℝ → ℝ
  v_net : List LinearParams

/-- `v_net` applied at each rank (`nn.Linear` broadcasts over leading
dimensions), then `torch.squeeze(·, -1)`.  A 0-D observation is not a
valid input to `nn.Linear` and is left untouched. -/
def MLPCritic.forward (c : MLPCritic) : Tensor → Tensor
  | .scalar x => .scalar x
  | .vec v => squeezeLast (.vec (mlpForward c.activation id c.v_net v))
  | .mat rows => squeezeLast (.mat (rows.map (mlpForward c.activation id c.v_net)))

/-! ## Actors

`Actor.forward` is shared by all actor subclasses through the virtual
methods `_distribution` and `_log_prob_from_distribution`; the interface
record holds those two methods (`D` is the distribution type). -/

structure ActorIface (D : Type) where
  distribution : Vec → D
  log_prob_from_distribution : D → Vec → ℝ

/-- Source:
    def forward(self, obs, act=None):
        pi = self._distribution(obs)
        logp_a = None
        if act is not None:
            logp_a = self._log_prob_from_distribution(pi, act)
        return pi, logp_a -/
def Actor.forward {D : Type} (self : ActorIface D) (obs : Vec) (act : Option Vec) :
    D × Option ℝ :=
  let pi := self.distribution obs
  let logp_a : Option ℝ :=
    match act with
    | none => none
    | some a => some (self.log_prob_from_distribution pi a)
  (pi, logp_a)

/-- `torch.distributions.normal.Normal(mu, std)`, by its parameters. -/
structure NormalDist where
  mu : Vec
  std : Vec

/-- Source:
    class MLPGaussianActor(Actor):
        def __init__(self, obs_dim, act_dim, hidden_sizes, activation):
            log_std = -0.5 * np.ones(act_dim, dtype=np.float32)
            self.log_std = torch.nn.Parameter(torch.as_tensor(log_std))
            self.mu_net = mlp([obs_dim] + list(hidden_sizes) + [act_dim], activation)
`mu_net` is built with the default `output_activation` (identity); its
weights are torch's random initialization, taken here as an input. -/
structure MLPGaussianActor where
  log_std : Vec
  activation : ℝ → ℝ
  mu_net : List LinearParams

def MLPGaussianActor.init (act_dim : ℕ) (activation : ℝ → ℝ)
    (mu_net : List LinearParams) : MLPGaussianActor :=
  ⟨List.replicate act_dim (-(1 / 2)), activation, mu_net⟩

/-- Source (`_distribution`; the NaN check only prints):
        mu = self.mu_net(obs)
        std = torch.exp(self.log_std)
        return Normal(mu, std) -/
def MLPGaussianActor.distribution (self : MLPGaussianActor) (obs : Vec) : NormalDist :=
  ⟨mlpForward self.activation id self.mu_net obs, self.log_std.map Real.exp⟩

/-- `torch.distributions.Beta(alpha, beta)`, by its parameters. -/
structure BetaDist where
  alpha : Vec
  beta : Vec

/-- `Beta.log_prob` of torch, per component:
`(α−1)·log x + (β−1)·log(1−x) − (lgamma α + lgamma β − lgamma (α+β))`. -/
def betaLogPdf (a b x : ℝ) : ℝ :=
  (a - 1) * Real.log x + (b - 1) * Real.log (1 - x)
    - (Real.log (Real.Gamma a) + Real.log (Real.Gamma b) - Real.log (Real.Gamma (a + b)))

def BetaDist.log_prob (pi : BetaDist) (act : Vec) : Vec :=
  (pi.alpha.zip (pi.beta.zip act)).map fun t => betaLogPdf t.1 t.2.1 t.2.2

/-- Source:
    class MLPBetaActor(Actor):
        def __init__(self, obs_dim, act_dim, hidden_sizes, activation):
            self.alpha_net = mlp([obs_dim] + list(hidden_sizes) + [act_dim],
                                 activation, output_activation=lambda : nn.ELU())
            self.beta_net  = mlp(..., activation, output_activation=lambda : nn.ELU())
Both nets end in an `nn.ELU` output activation. -/
structure MLPBetaActor where
  activation : ℝ → ℝ
  alpha_net : List LinearParams
  beta_net : List LinearParams

/-- Source (`_distribution`; the NaN check only prints):
        alpha = self.alpha_net(obs) + 2
        beta = self.beta_net(obs) + 2
        return torch.distributions.Beta(alpha, beta) -/
def MLPBetaActor.distribution (self : MLPBetaActor) (obs : Vec) : BetaDist :=
  ⟨(mlpForward self.activation elu self.alpha_net obs).map (· + 2),
    (mlpForward self.activation elu self.beta_net obs).map (· + 2)⟩

/-- Source (`_mean`):
        alpha = self.alpha_net(obs) + 2
        beta = self.beta_net(obs) + 2
        return alpha / (alpha + beta) -/
def MLPBetaActor.mean (self : MLPBetaActor) (obs : Vec) : Vec :=
  let alpha := (mlpForward self.activation elu self.alpha_net obs).map (· + 2)
  let beta := (mlpForward self.activation elu self.beta_net obs).map (· + 2)
  alpha.zipWith (fun a b => a / (a + b)) beta

/-- Source (`_log_prob_from_distribution`):
        return pi.log_prob(act).sum(axis=-1) -/
def MLPBetaActor.log_prob_from_distribution (pi : BetaDist) (act : Vec) : ℝ :=
  (pi.log_prob act).sum

/-! ## MLPActorCritic

The constructor selects `MLPBetaActor` as the policy (the Gaussian
alternatives are commented out in the source). -/

structure MLPActorCritic where
  pi : MLPBetaActor
  v : MLPCritic

/-- `torch.clamp(x, min=-1, max=1)` on one component. -/
def clamp1 (x : ℝ) : ℝ := min (max x (-1)) 1

def clampVec (v : Vec) : Vec := v.map clamp1

/-- Result of `MLPActorCritic.step`: the eval branch returns only the
action; the rollout branch returns the 5-tuple
`(a, v, logp_a, mu, mu_bar)`. -/
inductive StepResult where
  | evalAction (a : Vec)
  | full (a : Vec) (v : Tensor) (logp_a : ℝ) (mu mu_bar : Vec)

/-- The action component, `step(obs)[0]` of the source. -/
def StepResult.action : StepResult → Vec
  | .evalAction a => a
  | .full a _ _ _ _ => a

/-- Source:
    def step(self, obs, eval=False, std_mu=-1.):
        with torch.no_grad():
            if eval:
                a = self.pi._mean(obs)
                a = torch.clamp(a, min=-1, max=1)
                return a.numpy()
            else:
                pi = self.pi._distribution(obs)
                a = pi.sample()
                a = torch.clamp(a, min=-1, max=1)
                logp_a = self.pi._log_prob_from_distribution(pi, a)
                mu = self.pi._mean(obs)
                v = self.v(obs)
                mu_bar = mu
                if std_mu > 0:
                    mu_bar = self.pi._mean(torch.normal(obs, std_mu))
                return a.numpy(), v.numpy(), logp_a.numpy(), mu.numpy(), mu_bar.numpy()
Randomness is externalized: `sample pi` is the draw of `pi.sample()` and
`obsNoise` the draw of `torch.normal(obs, std_mu)`. -/
def MLPActorCritic.step (self : MLPActorCritic) (obs : Vec)
    (sample : BetaDist → Vec) (obsNoise : Vec) (eval : Bool) (std_mu : ℝ) :
    StepResult :=
  if eval then
    StepResult.evalAction (clampVec (self.pi.mean obs))
  else
    let pi := self.pi.distribution obs
    let a := clampVec (sample pi)
    let logp_a := MLPBetaActor.log_prob_from_distribution pi a
    let mu := self.pi.mean obs
    let v := self.v.forward (Tensor.vec obs)
    let mu_bar := if std_mu > 0 then self.pi.mean obsNoise else mu
    StepResult.full a v logp_a mu mu_bar

/-- Source:
    def act(self, obs):
        return self.step(obs)[0]
with the defaults `eval=False`, `std_mu=-1.`. -/
def MLPActorCritic.act (self : MLPActorCritic) (obs : Vec)
    (sample : BetaDist → Vec) (obsNoise : Vec) : Vec :=
  (self.step obs sample obsNoise false (-1)).action

/-- State-passing form of `step`: the method body contains no assignment
to any attribute or parameter of `self` (it even runs under
`torch.no_grad()`), so the post-state equals the pre-state. -/
def MLPActorCritic.stepS (self : MLPActorCritic) (obs : Vec)
    (sample : BetaDist → Vec) (obsNoise : Vec) (eval : Bool) (std_mu : ℝ) :
    StepResult × MLPActorCritic :=
  (self.step obs sample obsNoise eval std_mu, self)

/-- State-passing form of `act`. -/
def MLPActorCritic.actS (self : MLPActorCritic) (obs : Vec)
    (sample : BetaDist → Vec) (obsNoise : Vec) : Vec × MLPActorCritic :=
  (self.act obs sample obsNoise, self)

theorem flatMap_pairs_getElem? {β : Type} (g h : ℕ → β) (m j : ℕ) (hj : j < m) :
    ((List.range m).flatMap fun i => [g i, h i])[2 * j]? = some (g j) ∧
    ((List.range m).flatMap fun i => [g i, h i])[2 * j + 1]? = some (h j) := by
  induction m with
  | zero => omega
  | succ n ih =>
    rw [List.range_succ, List.flatMap_append]
    rcases Nat.lt_succ_iff_lt_or_eq.mp hj with h1 | rfl
    · have hlen := flatMap_pairs_length g h n
      constructor
      · rw [List.getElem?_append_left (by rw [hlen]; omega)]
        exact (ih h1).1
      · rw [List.getElem?_append_left (by rw [hlen]; omega)]
        exact (ih h1).2
    · have hlen := flatMap_pairs_length g h j
      constructor
      · rw [List.getElem?_append_right (le_of_eq hlen), hlen, Nat.sub_self]
        rfl
      · rw [List.getElem?_append_right (by rw [hlen]; omega), hlen,
          Nat.add_sub_cancel_left]
        rfl

/-! ## Claim theorems -/

/-- C1 counterexample: the source does contain an operation computing
discounted cumulative sums — `discount_cumsum` itself: at x = [1, 2, 3]
and d = 1/2 it returns exactly [x0 + d x1 + d² x2, x1 + d x2, x2]. -/
theorem discount_cumsum_present_counterexample :
    discount_cumsum [1, 2, 3] (1 / 2) =
      [1 + (1 / 2) * 2 + (1 / 2) ^ 2 * 3, 2 + (1 / 2) * 3, 3] := by
  rw [discount_cumsum_eq_dcsBack]
  norm_num [dcsBack]

/-- C1 (amended): the excerpt does contain a discounted-cumulative-sum
operation: `discount_cumsum` maps a vector x and a discount d to the
vector y with y[i] = Σ_k d^k · x[i+k] (indices read with default 0). -/
theorem discount_cumsum_computes_discounted_sums (x : List ℝ) (d : ℝ) (i : ℕ) :
    (discount_cumsum x d).length = x.length ∧
    (discount_cumsum x d).getD i 0 =
      ∑ k ∈ Finset.range (x.length - i), d ^ k * x.getD (i + k) 0 :=
  ⟨discount_cumsum_length x d, discount_cumsum_getD x d i⟩

/-- C3: `discount_cumsum x d` has the length of x and satisfies the closed
form y[i] = Σ_{k < n-i} d^k · x[i+k]; equivalently y[n-1] = x[n-1] and
y[i] = x[i] + d · y[i+1] for i+1 < n. -/
theorem discount_cumsum_spec (x : List ℝ) (d : ℝ) :
    (discount_cumsum x d).length = x.length ∧
    (∀ i, (discount_cumsum x d).getD i 0 =
      ∑ k ∈ Finset.range (x.length - i), d ^ k * x.getD (i + k) 0) ∧
    (x ≠ [] →
      (discount_cumsum x d).getD (x.length - 1) 0 = x.getD (x.length - 1) 0) ∧
    (∀ i, i + 1 < x.length →
      (discount_cumsum x d).getD i 0 =
        x.getD i 0 + d * (discount_cumsum x d).getD (i + 1) 0) :=
  ⟨discount_cumsum_length x d, fun i => discount_cumsum_getD x d i,
    discount_cumsum_last x d, fun i h => discount_cumsum_step x d i h⟩

/-- Witness for C3 at x = [1, 2, 3], d = 1/2. -/
theorem discount_cumsum_spec_witness :
    (([(1 : ℝ), 2, 3] : List ℝ) ≠ [] ∧ 0 + 1 < ([(1 : ℝ), 2, 3]).length) ∧
    (discount_cumsum [1, 2, 3] (1 / 2)).getD (([(1 : ℝ), 2, 3]).length - 1) 0 =
        ([(1 : ℝ), 2, 3]).getD (([(1 : ℝ), 2, 3]).length - 1) 0 ∧
      (discount_cumsum [1, 2, 3] (1 / 2)).getD 0 0 =
        ([(1 : ℝ), 2, 3]).getD 0 0 +
          1 / 2 * (discount_cumsum [1, 2, 3] (1 / 2)).getD (0 + 1) 0 := by
  refine ⟨⟨by simp, by simp⟩, ?_, ?_⟩
  · exact (discount_cumsum_spec [1, 2, 3] (1 / 2)).2.2.1 (by simp)
  · exact (discount_cumsum_spec [1, 2, 3] (1 / 2)).2.2.2 0 (by simp)

/-- C7: for sizes with at least two entries, `mlp` returns exactly
2·(len(sizes)−1) modules alternating Linear(sizes[j], sizes[j+1]) and an
activation instance — `activation` after every layer except the last,
`output_activation` after the last; with fewer than two entries it
returns an empty Sequential. -/
theorem mlp_structure {A : Type} (sizes : List ℕ) (activation output_activation : A) :
    (mlp sizes activation output_activation).length = 2 * (sizes.length - 1) ∧
    (∀ j, j < sizes.length - 1 →
      (mlp sizes activation output_activation)[2 * j]? =
        some (SeqModule.linear (sizes.getD j 0) (sizes.getD (j + 1) 0)) ∧
      (mlp sizes activation output_activation)[2 * j + 1]? =
        some (SeqModule.activation
          (if j < sizes.length - 2 then activation else output_activation))) ∧
    (sizes.length < 2 → mlp sizes activation output_activation = []) := by
  unfold mlp
  refine ⟨flatMap_pairs_length _ _ _,
    fun j hj => flatMap_pairs_getElem? _ _ _ j hj, fun h => ?_⟩
  have h0 : sizes.length - 1 = 0 := by omega
  rw [h0]
  rfl

/-- Witness for C7 at sizes = [2, 3, 1] (and the degenerate [5]). -/
theorem mlp_structure_witness :
    ((0 : ℕ) < ([2, 3, 1] : List ℕ).length - 1 ∧
      (mlp [2, 3, 1] true false)[2 * 0]? = some (SeqModule.linear 2 3) ∧
      (mlp [2, 3, 1] true false)[2 * 0 + 1]? = some (SeqModule.activation true)) ∧
    (([5] : List ℕ).length < 2 ∧ mlp [5] true false = []) := by
  constructor
  · refine ⟨by simp, ?_⟩
    have h := (mlp_structure [2, 3, 1] true false).2.1 0 (by simp)
    simpa using h
  · exact ⟨by simp, (mlp_structure [5] true false).2.2 (by simp)⟩

/-- C6: when `v_net` produces a single output feature, `MLPCritic.forward`
on a batch of n observations returns a 1-D tensor of length n (trailing
singleton dimension removed) and on a single observation returns a 0-D
scalar. -/
theorem MLPCritic.forward_shape (c : MLPCritic)
    (hv : ∀ x : Vec, (mlpForward c.activation id c.v_net x).length = 1)
    (obss : List Vec) (obs : Vec) :
    (∃ v : Vec, c.forward (Tensor.mat obss) = Tensor.vec v ∧
      v.length = obss.length) ∧
    (∃ y : ℝ, c.forward (Tensor.vec obs) = Tensor.scalar y) := by
  constructor
  · refine ⟨(obss.map (mlpForward c.activation id c.v_net)).map (fun r => r.headD 0),
      ?_, by simp⟩
    simp only [MLPCritic.forward, squeezeLast]
    rw [if_pos]
    intro r hr
    rcases List.mem_map.mp hr with ⟨o, _, rfl⟩
    exact hv o
  · refine ⟨(mlpForward c.activation id c.v_net obs).headD 0, ?_⟩
    simp only [MLPCritic.forward, squeezeLast]
    rw [if_pos (hv obs)]

/-- Concrete one-layer critic used by witnesses. -/
def critic0 : MLPCritic := ⟨id, [([[1]], [0])]⟩

/-- Witness for C6 with a 1×1 `v_net`, one-row batch, one observation. -/
theorem MLPCritic.forward_shape_witness :
    (∀ x : Vec, (mlpForward critic0.activation id critic0.v_net x).length = 1) ∧
    ((∃ v : Vec, critic0.forward (Tensor.mat [[0]]) = Tensor.vec v ∧
        v.length = ([([0] : Vec)]).length) ∧
      ∃ y : ℝ, critic0.forward (Tensor.vec [0]) = Tensor.scalar y) := by
  have hv : ∀ x : Vec, (mlpForward critic0.activation id critic0.v_net x).length = 1 := by
    intro x
    simp [critic0, mlpForward, linearForward]
  exact ⟨hv, MLPCritic.forward_shape critic0 hv [[0]] [0]⟩

/-- C4: `Actor.forward(obs, act)` returns (pi, logp_a) with pi the actor's
distribution for obs; logp_a is None exactly when act is None, and for
act = a it is `_log_prob_from_distribution(pi, a)`. -/
theorem Actor.forward_spec {D : Type} (self : ActorIface D) (obs : Vec) :
    (∀ act : Option Vec,
      (Actor.forward self obs act).1 = self.distribution obs ∧
      ((Actor.forward self obs act).2 = none ↔ act = none)) ∧
    (∀ a : Vec, (Actor.forward self obs (some a)).2 =
      some (self.log_prob_from_distribution (self.distribution obs) a)) := by
  constructor
  · intro act
    cases act <;> simp [Actor.forward]
  · intro a
    simp [Actor.forward]

/-- C5: the Gaussian actor's distribution is Normal with mean mu_net(obs)
and std exp(log_std); the std does not depend on the observation; at
construction log_std is −0.5 in every action dimension. -/
theorem MLPGaussianActor.distribution_spec :
    (∀ (self : MLPGaussianActor) (obs : Vec),
      (self.distribution obs).mu = mlpForward self.activation id self.mu_net obs ∧
      (self.distribution obs).std = self.log_std.map Real.exp) ∧
    (∀ (self : MLPGaussianActor) (obs1 obs2 : Vec),
      (self.distribution obs1).std = (self.distribution obs2).std) ∧
    (∀ (act_dim : ℕ) (activation : ℝ → ℝ) (mu_net : List LinearParams),
      (MLPGaussianActor.init act_dim activation mu_net).log_std =
        List.replicate act_dim (-(1 / 2))) :=
  ⟨fun _ _ => ⟨rfl, rfl⟩, fun _ _ _ => rfl, fun _ _ _ => rfl⟩

/-- C8: both concentration parameters passed to Beta are ELU(net output)+2
with ELU > −1, hence strictly greater than 1; therefore Beta's positivity
precondition holds and α + β > 2 is never zero, so `_mean` never divides
by zero. -/
theorem MLPBetaActor.beta_params_gt_one (self : MLPBetaActor) (obs : Vec)
    (ha : self.alpha_net ≠ []) (hb : self.beta_net ≠ []) :
    (∀ a ∈ (self.distribution obs).alpha, 1 < a) ∧
    (∀ b ∈ (self.distribution obs).beta, 1 < b) ∧
    (∀ p ∈ (self.distribution obs).alpha.zip (self.distribution obs).beta,
      2 < p.1 + p.2 ∧ p.1 + p.2 ≠ 0) := by
  have key : ∀ (ps : List LinearParams), ps ≠ [] →
      ∀ v ∈ (mlpForward self.activation elu ps obs).map (· + 2), 1 < v := by
    intro ps hps v hv
    rcases List.mem_map.mp hv with ⟨w, hw, rfl⟩
    rcases mlpForward_mem_out_range self.activation elu ps obs hps w hw with ⟨z, rfl⟩
    have := neg_one_lt_elu z
    linarith
  refine ⟨key _ ha, key _ hb, ?_⟩
  rintro ⟨pa, pb⟩ hp
  have hmem := List.of_mem_zip hp
  have h1 : 1 < pa := key _ ha pa hmem.1
  have h2 : 1 < pb := key _ hb pb hmem.2
  constructor
  · linarith
  · intro h0
    linarith

/-- Concrete one-layer Beta actor used by witnesses. -/
def betaActor0 : MLPBetaActor := ⟨id, [([[1]], [0])], [([[1]], [0])]⟩

/-- Witness for C8 on a 1×1 Beta actor at obs = [0]. -/
theorem MLPBetaActor.beta_params_gt_one_witness :
    (betaActor0.alpha_net ≠ [] ∧ betaActor0.beta_net ≠ []) ∧
    ((∀ a ∈ (betaActor0.distribution [0]).alpha, 1 < a) ∧
      (∀ b ∈ (betaActor0.distribution [0]).beta, 1 < b) ∧
      (∀ p ∈ (betaActor0.distribution [0]).alpha.zip
          (betaActor0.distribution [0]).beta, 2 < p.1 + p.2 ∧ p.1 + p.2 ≠ 0)) := by
  refine ⟨⟨by simp [betaActor0], by simp [betaActor0]⟩, ?_⟩
  exact MLPBetaActor.beta_params_gt_one betaActor0 [0]
    (by simp [betaActor0]) (by simp [betaActor0])

/-- C2: `step(obs)` with eval=False builds the distribution for obs,
clamps the sample componentwise to [−1, 1], and returns the 5-tuple
(a, v, logp_a, mu, mu_bar) in which a is the clamped sample, v the
critic's value for obs, and logp_a the log-probability of the returned
action a under the same distribution, summed over the last axis. -/
theorem MLPActorCritic.step_rollout (self : MLPActorCritic) (obs : Vec)
    (sample : BetaDist → Vec) (obsNoise : Vec) (std_mu : ℝ) :
    ∃ mu mu_bar,
      self.step obs sample obsNoise false std_mu =
        StepResult.full
          (clampVec (sample (self.pi.distribution obs)))
          (self.v.forward (Tensor.vec obs))
          (((self.pi.distribution obs).log_prob
              (clampVec (sample (self.pi.distribution obs)))).sum)
          mu mu_bar := by
  refine ⟨self.pi.mean obs,
    if std_mu > 0 then self.pi.mean obsNoise else self.pi.mean obs, ?_⟩
  simp [MLPActorCritic.step, MLPBetaActor.log_prob_from_distribution]

/-- C9: every component of the action returned by `step` — in both the
eval=True branch (clamped policy mean) and the eval=False branch (clamped
sample) — and of the action returned by `act`, lies in [−1, 1]. -/
theorem MLPActorCritic.action_bounded (self : MLPActorCritic) (obs : Vec)
    (sample : BetaDist → Vec) (obsNoise : Vec) (eval : Bool) (std_mu : ℝ) :
    (∀ x ∈ (self.step obs sample obsNoise eval std_mu).action, -1 ≤ x ∧ x ≤ 1) ∧
    (∀ x ∈ self.act obs sample obsNoise, -1 ≤ x ∧ x ≤ 1) := by
  have hb : ∀ (v : Vec), ∀ x ∈ clampVec v, -1 ≤ x ∧ x ≤ 1 := by
    intro v x hx
    rcases List.mem_map.mp hx with ⟨y, _, rfl⟩
    refine ⟨le_min (le_max_right y (-1)) (by norm_num), min_le_right _ 1⟩
  constructor
  · cases eval <;>
      simp only [MLPActorCritic.step, StepResult.action, if_true, if_false,
        Bool.false_eq_true, ite_false, ite_true] <;>
      exact hb _
  · exact fun x hx => hb _ x (by
      simpa [MLPActorCritic.act, MLPActorCritic.step, StepResult.action] using hx)

/-- Concrete actor-critic used by witnesses. -/
def ac0 : MLPActorCritic := ⟨betaActor0, critic0⟩

/-- Witness for C9: the clamped sample component of a concrete step/act. -/
theorem MLPActorCritic.action_bounded_witness :
    (clamp1 5 ∈ (ac0.step [0] (fun _ => [5]) [0] false (-1)).action ∧
      clamp1 5 ∈ ac0.act [0] (fun _ => [5]) [0]) ∧
    ((-1 ≤ clamp1 5 ∧ clamp1 5 ≤ 1) ∧ (-1 ≤ clamp1 5 ∧ clamp1 5 ≤ 1)) := by
  have hmem1 : clamp1 5 ∈ (ac0.step [0] (fun _ => [5]) [0] false (-1)).action := by
    simp [MLPActorCritic.step, StepResult.action, clampVec]
  have hmem2 : clamp1 5 ∈ ac0.act [0] (fun _ => [5]) [0] := by
    simp [MLPActorCritic.act, MLPActorCritic.step, StepResult.action, clampVec]
  exact ⟨⟨hmem1, hmem2⟩,
    (MLPActorCritic.action_bounded ac0 [0] (fun _ => [5]) [0] false (-1)).1
      (clamp1 5) hmem1,
    (MLPActorCritic.action_bounded ac0 [0] (fun _ => [5]) [0] false (-1)).2
      (clamp1 5) hmem2⟩

/-- C10: `step` and `act` perform no parameter optimization: in the
state-passing embedding the post-state equals the pre-state, so every
parameter — the actor's Linear weights and biases, the critic's Linear
weights and biases (and a log_std, were the policy class one that has
it) — is unchanged for every observation, eval and std_mu. -/
theorem MLPActorCritic.no_param_update (self : MLPActorCritic) (obs : Vec)
    (sample : BetaDist → Vec) (obsNoise : Vec) (eval : Bool) (std_mu : ℝ) :
    (self.stepS obs sample obsNoise eval std_mu).2.pi.alpha_net = self.pi.alpha_net ∧
    (self.stepS obs sample obsNoise eval std_mu).2.pi.beta_net = self.pi.beta_net ∧
    (self.stepS obs sample obsNoise eval std_mu).2.v.v_net = self.v.v_net ∧
    (self.stepS obs sample obsNoise eval std_mu).2 = self ∧
    (self.actS obs sample obsNoise).2 = self :=
  ⟨rfl, rfl, rfl, rfl, rfl⟩

end
